import Mathlib

/-!
Verification of the shade-perfection core engine (superellipse curve fitting
and arc-length palette distribution) against its natural-language
specification.  The definitions below are a shallow embedding, over the real
numbers, of the JavaScript modules `SuperellipseMath.js` (exponent fitting,
curve sampling, arc-length lookup, nearest-point projection) and
`ColorGenerator.js` (swatch distribution), together with the configuration
constants of `config.js` and the smart-spacing toggle handler of
`UIController.js`.
-/

open Real

noncomputable section

namespace ShadePerfection

/-! ### Configuration constants (`config.js`) -/

def SUPERELLIPSE_N_MIN : ℝ := 0.1
def SUPERELLIPSE_N_MAX : ℝ := 25
def SUPERELLIPSE_TOLERANCE : ℝ := 0.001
def SUPERELLIPSE_MAX_ITERATIONS : ℕ := 100
def CURVE_RESOLUTION : ℕ := 400
def PALETTE_SIZE : ℝ := 180
def SATURATION_DEFAULT : ℝ := 100

/-! ### `SuperellipseMath.findExponent`

`f(n) = x^n + y^n - 1`; bounded bisection between `N_MIN` and `N_MAX` with
early return when `|f(mid)| < TOLERANCE`, at most `MAX_ITERATIONS` steps,
final answer `min ((nMin+nMax)/2) N_MAX`.  Degenerate guards: either
coordinate at most `0.001` returns `N_MIN`; both coordinates at least `0.99`
return `N_MAX`.  Powers with real exponents are `Real.rpow`, matching
JavaScript `Math.pow` on nonnegative bases. -/

/-- The bisection objective `x^n + y^n - 1` from `findExponent`. -/
def superF (x y n : ℝ) : ℝ := x ^ n + y ^ n - 1

/-- The bisection loop of `findExponent`, with the remaining iteration count
as the first argument (the source runs `SUPERELLIPSE_MAX_ITERATIONS` steps). -/
def bisectLoop (x y : ℝ) : ℕ → ℝ → ℝ → ℝ
  | 0, nMin, nMax => min ((nMin + nMax) / 2) SUPERELLIPSE_N_MAX
  | k + 1, nMin, nMax =>
      let nMid := (nMin + nMax) / 2
      let f := superF x y nMid
      if |f| < SUPERELLIPSE_TOLERANCE then min nMid SUPERELLIPSE_N_MAX
      else
        let fMin := superF x y nMin
        if f * fMin < 0 then bisectLoop x y k nMin nMid
        else bisectLoop x y k nMid nMax

/-- `SuperellipseMath.findExponent(x, y)`. -/
def findExponent (x y : ℝ) : ℝ :=
  if x ≤ 0.001 ∧ y ≤ 0.001 then SUPERELLIPSE_N_MIN
  else if x ≤ 0.001 ∨ y ≤ 0.001 then SUPERELLIPSE_N_MIN
  else if x ≥ 0.99 ∧ y ≥ 0.99 then SUPERELLIPSE_N_MAX
  else bisectLoop x y SUPERELLIPSE_MAX_ITERATIONS SUPERELLIPSE_N_MIN SUPERELLIPSE_N_MAX

/-! ### Curve sampling (`generateCurvePoints` / `generateDesaturatedCurve`)

Both generators sample `i = 0 .. CURVE_RESOLUTION` at `t = (i/400)·(π/2)`,
clamp the coordinates into `[0,1]`, accumulate Euclidean arc length skipping
segments of length at most `1e-10`, and normalize by the total (falling back
to index-based normalization when the total is zero).  They differ only in
the x-compression factor and the exponent, so we embed one parameterized
sampler `sampleX/sampleY/arcLen` used by both: the main curve has
compression `1` and exponent `2/n`, the desaturated curve has compression
`max 0.005 (saturationPercent/100)` and exponent `2/nSecondary`. -/

structure CurvePoint where
  t : ℝ
  x : ℝ
  y : ℝ
  pixelX : ℝ
  pixelY : ℝ
  arcLength : ℝ
  normalizedArcLength : ℝ

instance : Inhabited CurvePoint := ⟨⟨0, 0, 0, 0, 0, 0, 0⟩⟩

/-- Sample parameter `t = (i / resolution) * π / 2`. -/
def sampleT (i : ℕ) : ℝ := ((i : ℝ) / (CURVE_RESOLUTION : ℝ)) * Real.pi / 2

/-- Clamped x coordinate `max 0 (min 1 (ax * cos(t)^e))` of sample `i`
(`ax = 1` for the main curve). -/
def sampleX (ax e : ℝ) (i : ℕ) : ℝ :=
  max 0 (min 1 (ax * Real.cos (sampleT i) ^ e))

/-- Clamped y coordinate `max 0 (min 1 (sin(t)^e))` of sample `i`. -/
def sampleY (e : ℝ) (i : ℕ) : ℝ :=
  max 0 (min 1 (Real.sin (sampleT i) ^ e))

/-- Cumulative arc length after sample `i`: each new segment is added only
when its Euclidean length exceeds `1e-10` (`minSegmentLength`). -/
def arcLen (ax e : ℝ) : ℕ → ℝ
  | 0 => 0
  | i + 1 =>
      arcLen ax e i +
        (let seg := Real.sqrt ((sampleX ax e (i + 1) - sampleX ax e i) ^ 2 +
          (sampleY e (i + 1) - sampleY e i) ^ 2)
         if seg > 1e-10 then seg else 0)

/-- Normalized arc length of sample `i`: division by the total when the
total is positive, otherwise the index-based fallback `i / (points - 1)`. -/
def normArc (ax e : ℝ) (i : ℕ) : ℝ :=
  if arcLen ax e CURVE_RESOLUTION > 0 then
    arcLen ax e i / arcLen ax e CURVE_RESOLUTION
  else (i : ℝ) / (CURVE_RESOLUTION : ℝ)

/-- One generated curve sample (common to both generators). -/
def genPoint (ax e : ℝ) (i : ℕ) : CurvePoint :=
  { t := sampleT i
    x := sampleX ax e i
    y := sampleY e i
    pixelX := sampleX ax e i * PALETTE_SIZE
    pixelY := (1 - sampleY e i) * PALETTE_SIZE
    arcLength := arcLen ax e i
    normalizedArcLength := normArc ax e i }

/-- The full sampled curve for compression `ax` and exponent `e`. -/
def genCurve (ax e : ℝ) : List CurvePoint :=
  (List.range (CURVE_RESOLUTION + 1)).map (genPoint ax e)

/-- `SuperellipseMath.generateCurvePoints(n)`: the main curve
`x = cos(t)^(2/n)`, `y = sin(t)^(2/n)`. -/
def generateCurvePoints (n : ℝ) : List CurvePoint := genCurve 1 (2 / n)

/-- `SuperellipseMath.generateDesaturatedCurve(nMain, saturationPercent)`:
compression `a = max 0.005 (saturationPercent/100)` and secondary exponent
`nSecondary = 1 + (nMain - 1) * (saturationPercent/100)`. -/
def generateDesaturatedCurve (nMain saturationPercent : ℝ) : List CurvePoint :=
  genCurve (max 0.005 (saturationPercent / 100))
    (2 / (1 + (nMain - 1) * (saturationPercent / 100)))

/-! ### Point lookup (`findPointAtArcLength` / `findClosestPoint`)

`findPointAtArcLength` clamps to the first/last sample at the boundaries
(query `≤ 0` or `≥ 1`), otherwise scans for the first bracketing pair of
samples and interpolates linearly; if no bracket is found it returns the
last sample.  `findClosestPoint` does a coarse linear scan minimizing the
squared distance (first minimum wins) and then refines over the `±3`-sample
window by clamped segment projection.  Both return a plain
`x`/`y`/`normalizedArcLength` record (`ResolvedPoint` below); the branches
that return a stored sample are embedded through `asResolved`. -/

structure ResolvedPoint where
  x : ℝ
  y : ℝ
  normalizedArcLength : ℝ

instance : Inhabited ResolvedPoint := ⟨⟨0, 0, 0⟩⟩

/-- View a stored curve sample as a lookup result. -/
def asResolved (p : CurvePoint) : ResolvedPoint :=
  ⟨p.x, p.y, p.normalizedArcLength⟩

/-- The bracket scan of `findPointAtArcLength`: walk consecutive pairs
`(prev, curr)` and interpolate at the first pair whose normalized arc
lengths bracket the query. -/
def findArcAux (q : ℝ) : CurvePoint → List CurvePoint → Option ResolvedPoint
  | _, [] => none
  | prev, curr :: rest =>
      if prev.normalizedArcLength ≤ q ∧ q ≤ curr.normalizedArcLength then
        let s := (q - prev.normalizedArcLength) /
          (curr.normalizedArcLength - prev.normalizedArcLength)
        some ⟨prev.x + s * (curr.x - prev.x), prev.y + s * (curr.y - prev.y), q⟩
      else findArcAux q curr rest

/-- `SuperellipseMath.findPointAtArcLength(normalizedArcLength, curvePoints)`. -/
def findPointAtArcLength (q : ℝ) (curvePoints : List CurvePoint) : ResolvedPoint :=
  if q ≤ 0 then asResolved curvePoints.headI
  else if q ≥ 1 then asResolved curvePoints.getLastI
  else
    match curvePoints with
    | [] => asResolved curvePoints.headI
    | p :: rest => (findArcAux q p rest).getD (asResolved curvePoints.getLastI)

/-- Squared Euclidean distance used by the coarse scan of
`findClosestPoint`. -/
def sqDist (tx ty : ℝ) (p : CurvePoint) : ℝ :=
  (p.x - tx) * (p.x - tx) + (p.y - ty) * (p.y - ty)

/-- Index of the coarse nearest sample: linear scan tracking the strict
minimum of the squared distance, first occurrence winning (the tracked
minimum distance always equals the distance of the tracked index, so the
fold recomputes it from the index). -/
def coarseIdx (tx ty : ℝ) (curvePoints : List CurvePoint) : ℕ :=
  (List.range curvePoints.length).foldl
    (fun best i =>
      if sqDist tx ty (curvePoints.getD i default) <
          sqDist tx ty (curvePoints.getD best default) then i else best) 0

/-- One refinement step of `findClosestPoint`: clamped projection of the
target onto the segment `p1 p2`, skipping segments with squared length at
most `1e-10`, keeping the candidate only when it strictly improves the best
squared distance.  The state is `(best point, best squared distance)`. -/
def refineStep (tx ty : ℝ) (p1 p2 : CurvePoint) :
    ResolvedPoint × ℝ → ResolvedPoint × ℝ := fun st =>
  let segX := p2.x - p1.x
  let segY := p2.y - p1.y
  let segLenSq := segX * segX + segY * segY
  if segLenSq > 1e-10 then
    let s := max 0 (min 1 (((tx - p1.x) * segX + (ty - p1.y) * segY) / segLenSq))
    let px := p1.x + s * segX
    let py := p1.y + s * segY
    let pal := p1.normalizedArcLength +
      s * (p2.normalizedArcLength - p1.normalizedArcLength)
    let d := (px - tx) * (px - tx) + (py - ty) * (py - ty)
    if d < st.2 then (⟨px, py, pal⟩, d) else st
  else st

/-- `SuperellipseMath.findClosestPoint(targetX, targetY, curvePoints)`. -/
def findClosestPoint (tx ty : ℝ) (curvePoints : List CurvePoint) : ResolvedPoint :=
  let ci := coarseIdx tx ty curvePoints
  let cp := curvePoints.getD ci default
  let startIdx := ci - 3
  let endIdx := min (curvePoints.length - 1) (ci + 3)
  ((List.Ico startIdx endIdx).foldl
    (fun st i =>
      refineStep tx ty (curvePoints.getD i default) (curvePoints.getD (i + 1) default) st)
    (asResolved cp, sqDist tx ty cp)).1

/-! ### Distributor (`ColorGenerator.generatePalette` lines 51-88 and
`ColorGenerator._calculateArcLength`)

The before/after split of the `count - 1` non-anchor points, and the
per-point arc length.  `useContrastFlag` embeds
`useContrastMode = contrast !== 1.0`.  `Math.round` is `round` (both are
`⌊x + 1/2⌋` for the nonnegative arguments that occur here);
`Math.floor`/`Math.ceil` are `Int.floor`/`Int.ceil` of the real halves. -/

def useContrastFlag (contrast : ℝ) : Bool :=
  if contrast = 1 then false else true

/-- The before/after split of `generatePalette`: the smart-spacing branch is
guarded by `smartSpacing && !useContrastMode`; otherwise even total counts
split floor/ceil with the larger half on the side with the larger raw
arc-length span (ties to the before side via `>=`), and odd total counts
split evenly. -/
def computeSplit (count : ℕ) (a contrast : ℝ) (smartSpacing : Bool) : ℤ × ℤ :=
  let ptd : ℤ := (count : ℤ) - 1
  if smartSpacing = true ∧ useContrastFlag contrast = false then
    let pb := round (a * (ptd : ℝ))
    let pa := ptd - pb
    if pb = 0 ∧ 1 < pa then (1, pa - 1)
    else if pa = 0 ∧ 1 < pb then (pb - 1, 1)
    else (pb, pa)
  else
    if count % 2 = 0 then
      let smaller := ⌊(ptd : ℝ) / 2⌋
      let larger := ⌈(ptd : ℝ) / 2⌉
      if 1 - a ≤ a then (larger, smaller) else (smaller, larger)
    else (⌊(ptd : ℝ) / 2⌋, ⌊(ptd : ℝ) / 2⌋)

/-- The `poweredDistance` computed in the contrast branch of
`_calculateArcLength`: a blend of the identity with a power warp,
`linear * (1 - t) + curved * t`, where the exponent is `1/1.5` above unit
contrast and `1.5` below. -/
def poweredDistance (normalizedDistance contrast : ℝ) : ℝ :=
  if contrast > 1 then
    let s := min ((contrast - 1) / 4.0) 1.0
    normalizedDistance * (1 - s) + normalizedDistance ^ ((1 : ℝ) / 1.5) * s
  else if contrast < 1 then
    let s := min ((1 - contrast) / 0.9) 1.0
    normalizedDistance * (1 - s) + normalizedDistance ^ (1.5 : ℝ) * s
  else normalizedDistance

/-- `ColorGenerator._calculateArcLength(index, total, selectedArc, contrast,
useContrast, isBefore)`. -/
def calculateArcLength (index total : ℕ) (selectedArc contrast : ℝ)
    (useContrast isBefore : Bool) : ℝ :=
  if useContrast = false then
    if isBefore then selectedArc / ((total : ℝ) + 1) * ((index : ℝ) + 1)
    else selectedArc + (1 - selectedArc) / ((total : ℝ) + 1) * ((index : ℝ) + 1)
  else
    let normalizedDistance : ℝ :=
      (if isBefore then (total : ℝ) - (index : ℝ) else (index : ℝ) + 1) / ((total : ℝ) + 1)
    if isBefore then
      selectedArc - selectedArc * poweredDistance normalizedDistance contrast
    else selectedArc + (1 - selectedArc) * poweredDistance normalizedDistance contrast

/-- The ordered multiset of swatch arc lengths produced by
`generatePalette`: the before loop, the anchor at `a`, then the after
loop (the spec's `computeSwatchArcLengths(request, anchorArcLength)`). -/
def computeSwatchArcLengths (count : ℕ) (a contrast : ℝ) (smartSpacing : Bool) :
    List ℝ :=
  let pb := (computeSplit count a contrast smartSpacing).1
  let pa := (computeSplit count a contrast smartSpacing).2
  ((List.range pb.toNat).map fun i =>
    calculateArcLength i pb.toNat a contrast (useContrastFlag contrast) true)
  ++ a ::
  ((List.range pa.toNat).map fun i =>
    calculateArcLength i pa.toNat a contrast (useContrastFlag contrast) false)

/-! ### Palette assembly (`ColorGenerator.generatePalette`)

The swatch records carry the numeric fields of the source's color objects
(`s`, `v`, `arcLength`, `mainS`, `mainV` and the `isSelected` / `isBlack` /
`isWhite` flags).  The hex strings (`ColorMath.hsvToHex`) are a colorspace
conversion collaborator outside the engine per the specification's scope and
are determined by `(hue, s, v)`, so they are not modelled. -/

structure Swatch where
  s : ℝ
  v : ℝ
  arcLength : ℝ
  isSelected : Bool := false
  isBlack : Bool := false
  isWhite : Bool := false
  mainS : ℝ
  mainV : ℝ

instance : Inhabited Swatch := ⟨{ s := 0, v := 0, arcLength := 0, mainS := 0, mainV := 0 }⟩

/-- The fixed black endpoint swatch pushed by `includeBlackWhite` (arc
length `0`, unit-square coordinates `(0,0)`, no curve lookup). -/
def blackSwatch : Swatch :=
  { s := 0, v := 0, arcLength := 0, isBlack := true, mainS := 0, mainV := 0 }

/-- The fixed white endpoint swatch pushed by `includeBlackWhite` (arc
length `1`, unit-square coordinates `(0,1)`, no curve lookup). -/
def whiteSwatch : Swatch :=
  { s := 0, v := 100, arcLength := 1, isWhite := true, mainS := 0, mainV := 100 }

structure PaletteParams where
  hue : ℝ
  saturation : ℝ
  value : ℝ
  colorCount : ℕ
  contrast : ℝ
  smartSpacing : Bool
  includeBlackWhite : Bool
  saturationControl : Option ℝ

/-- One non-anchor swatch of `generatePalette`: per-point arc length, then
lookups on the main and desaturated curves. -/
def distributedSwatch (curvePoints desatPoints : List CurvePoint)
    (index total : ℕ) (a contrast : ℝ) (useContrast isBefore : Bool) : Swatch :=
  let arc := calculateArcLength index total a contrast useContrast isBefore
  let mainPoint := findPointAtArcLength arc curvePoints
  let desatPoint := findPointAtArcLength arc desatPoints
  { s := desatPoint.x * 100, v := desatPoint.y * 100, arcLength := arc,
    mainS := mainPoint.x * 100, mainV := mainPoint.y * 100 }

/-- `ColorGenerator.generatePalette(params)`, restricted to its `colors`
output (the returned curve point arrays are `generateCurvePoints n` and
`generateDesaturatedCurve n saturationPercent` themselves). -/
def generatePalette (p : PaletteParams) : List Swatch :=
  let normalizedX := p.saturation / 100
  let normalizedY := p.value / 100
  let n := findExponent normalizedX normalizedY
  let curvePoints := generateCurvePoints n
  let selectedArcLength := (findClosestPoint normalizedX normalizedY curvePoints).normalizedArcLength
  let useContrast := useContrastFlag p.contrast
  let pb := (computeSplit p.colorCount selectedArcLength p.contrast p.smartSpacing).1
  let pa := (computeSplit p.colorCount selectedArcLength p.contrast p.smartSpacing).2
  let saturationPercent := p.saturationControl.getD SATURATION_DEFAULT
  let desatPoints := generateDesaturatedCurve n saturationPercent
  let before := (List.range pb.toNat).map fun i =>
    distributedSwatch curvePoints desatPoints i pb.toNat selectedArcLength
      p.contrast useContrast true
  let selectedDesat := findPointAtArcLength selectedArcLength desatPoints
  let anchorSwatch : Swatch :=
    { s := selectedDesat.x * 100, v := selectedDesat.y * 100,
      arcLength := selectedArcLength, isSelected := true,
      mainS := p.saturation, mainV := p.value }
  let after := (List.range pa.toNat).map fun i =>
    distributedSwatch curvePoints desatPoints i pa.toNat selectedArcLength
      p.contrast useContrast false
  let colors := before ++ anchorSwatch :: after
  if p.includeBlackWhite then (blackSwatch :: colors) ++ [whiteSwatch] else colors

/-! ### UI smart-spacing toggle (`UIController._handleFeatureToggle`,
case `"smartSpacing"`)

Enabling the toggle stores the flag and then forces `state.contrast = 1.0`
(and disables the contrast input); disabling only stores the flag. -/

structure UiState where
  contrast : ℝ
  smartSpacing : Bool
  contrastInputDisabled : Bool

/-- The `"smartSpacing"` case of `_handleFeatureToggle`. -/
def handleSmartSpacingToggle (st : UiState) (isActive : Bool) : UiState :=
  let st1 : UiState := { st with smartSpacing := isActive }
  if isActive then { st1 with contrast := 1.0, contrastInputDisabled := true }
  else { st1 with contrastInputDisabled := false }

/-! ### Specification-worded reference definitions

Two claims (C5 and C7) are refinement statements: the distribution formulas
are restated in the specification's own words and compared with the
embedded source code.  The following two definitions follow the
specification's wording; the claim theorems prove them equal to the source
embeddings above. -/

/-- The smart-spacing split exactly as the specification words it:
`pointsBefore = round(anchorArcLength * (count-1))`,
`pointsAfter = (count-1) - pointsBefore`, stealing one point from the larger
side when the other side is empty and the larger side exceeds one. -/
def smartSplitSpec (count : ℕ) (a : ℝ) : ℤ × ℤ :=
  let pointsBefore := round (a * ((count : ℝ) - 1))
  let pointsAfter := ((count : ℤ) - 1) - pointsBefore
  if pointsBefore = 0 ∧ 1 < pointsAfter then (1, pointsAfter - 1)
  else if pointsAfter = 0 ∧ 1 < pointsBefore then (pointsBefore - 1, 1)
  else (pointsBefore, pointsAfter)

/-- The contrast-mode per-point arc length exactly as the specification
words it: `normalizedDistance = (isBefore ? side - i : i + 1) / (side + 1)`,
a blend `(1-t)*d + t*d^(1/1.5)` for `contrast > 1` with
`t = min((contrast-1)/4.0, 1)`, a blend `(1-t)*d + t*d^1.5` for
`contrast < 1` with `t = min((1-contrast)/0.9, 1)`, mapped back to
`anchor - anchor*pd` on the before side and `anchor + (1-anchor)*pd` on the
after side. -/
def contrastArcLengthSpec (i side : ℕ) (anchor contrast : ℝ) (isBefore : Bool) : ℝ :=
  let normalizedDistance : ℝ :=
    (if isBefore then (side : ℝ) - (i : ℝ) else (i : ℝ) + 1) / ((side : ℝ) + 1)
  let poweredDistance : ℝ :=
    if 1 < contrast then
      let blend := min ((contrast - 1) / 4.0) 1
      (1 - blend) * normalizedDistance +
        blend * normalizedDistance ^ ((1 : ℝ) / 1.5)
    else
      let blend := min ((1 - contrast) / 0.9) 1
      (1 - blend) * normalizedDistance + blend * normalizedDistance ^ (1.5 : ℝ)
  if isBefore then anchor - anchor * poweredDistance
  else anchor + (1 - anchor) * poweredDistance

/-! ### Basic curve lemmas -/

lemma genCurve_length (ax e : ℝ) : (genCurve ax e).length = CURVE_RESOLUTION + 1 := by
  simp [genCurve]

lemma arcLen_zero (ax e : ℝ) : arcLen ax e 0 = 0 := rfl

lemma arcLen_le_succ (ax e : ℝ) (i : ℕ) : arcLen ax e i ≤ arcLen ax e (i + 1) := by
  rw [arcLen]
  refine le_add_of_nonneg_right ?_
  dsimp only
  split
  · exact Real.sqrt_nonneg _
  · exact le_rfl

lemma arcLen_mono (ax e : ℝ) : Monotone (arcLen ax e) :=
  monotone_nat_of_le_succ (arcLen_le_succ ax e)

lemma arcLen_nonneg (ax e : ℝ) (i : ℕ) : 0 ≤ arcLen ax e i := by
  have := arcLen_mono ax e (Nat.zero_le i)
  simpa [arcLen_zero] using this

lemma normArc_zero (ax e : ℝ) : normArc ax e 0 = 0 := by
  unfold normArc
  split <;> simp [arcLen_zero]

lemma normArc_top (ax e : ℝ) : normArc ax e CURVE_RESOLUTION = 1 := by
  unfold normArc
  split
  · exact div_self (ne_of_gt (by assumption))
  · norm_num [CURVE_RESOLUTION]

lemma normArc_mono (ax e : ℝ) {i j : ℕ} (hij : i ≤ j) :
    normArc ax e i ≤ normArc ax e j := by
  unfold normArc
  split
  · exact (div_le_div_iff_of_pos_right (by assumption)).mpr (arcLen_mono ax e hij)
  · exact (div_le_div_iff_of_pos_right (by norm_num [CURVE_RESOLUTION])).mpr
      (by exact_mod_cast hij)

lemma normArc_nonneg (ax e : ℝ) (i : ℕ) : 0 ≤ normArc ax e i := by
  have := normArc_mono ax e (Nat.zero_le i)
  simpa [normArc_zero] using this

lemma normArc_le_one (ax e : ℝ) {i : ℕ} (hi : i ≤ CURVE_RESOLUTION) :
    normArc ax e i ≤ 1 := by
  have := normArc_mono ax e hi
  simpa [normArc_top] using this

lemma getLastI_concat {α : Type _} [Inhabited α] (l : List α) (x : α) :
    (l ++ [x]).getLastI = x := by
  rw [List.getLastI_eq_getLast?, List.getLast?_concat]

lemma genCurve_headI (ax e : ℝ) : (genCurve ax e).headI = genPoint ax e 0 := by
  rw [genCurve, List.range_succ_eq_map]
  simp

lemma genCurve_getLastI (ax e : ℝ) :
    (genCurve ax e).getLastI = genPoint ax e CURVE_RESOLUTION := by
  rw [genCurve, List.range_succ, List.map_append]
  simpa using getLastI_concat _ _

lemma genCurve_ne_nil (ax e : ℝ) : genCurve ax e ≠ [] := by
  intro h
  have := genCurve_length ax e
  rw [h] at this
  simp at this

lemma genCurve_pairwise (ax e : ℝ) :
    (genCurve ax e).Pairwise
      (fun p q => p.normalizedArcLength ≤ q.normalizedArcLength) := by
  rw [genCurve, List.pairwise_map]
  exact (List.pairwise_lt_range _).imp
    (fun {i j} hij => normArc_mono ax e (le_of_lt hij))

lemma genCurve_mem_nal {ax e : ℝ} {p : CurvePoint} (hp : p ∈ genCurve ax e) :
    0 ≤ p.normalizedArcLength ∧ p.normalizedArcLength ≤ 1 := by
  rw [genCurve, List.mem_map] at hp
  obtain ⟨i, hi, rfl⟩ := hp
  rw [List.mem_range] at hi
  exact ⟨normArc_nonneg ax e i, normArc_le_one ax e (Nat.lt_succ_iff.mp hi)⟩

/-! ### Claims C10, C4, C9 -/

/-- C10: for every exponent input `n` and every `saturationPercent`, both
curve generators return exactly `CURVE_RESOLUTION + 1 = 401` points — the
per-sample exception-skip branch of the source is unreachable because the
embedded power function is total — so every curve handed to the lookup
functions is non-empty with a well-defined first and last element. -/
theorem C10_curve_sample_counts (n s : ℝ) :
    (generateCurvePoints n).length = 401 ∧
    (generateDesaturatedCurve n s).length = 401 ∧
    generateCurvePoints n ≠ [] ∧ generateDesaturatedCurve n s ≠ [] := by
  refine ⟨?_, ?_, ?_, ?_⟩
  · rw [generateCurvePoints, genCurve_length]; rfl
  · rw [generateDesaturatedCurve, genCurve_length]; rfl
  · exact genCurve_ne_nil _ _
  · exact genCurve_ne_nil _ _

/-- C4: for every exponent `n ∈ [0.1, 25]`, `generateCurvePoints n` is a
non-empty sequence whose `normalizedArcLength` values are monotonically
non-decreasing, with first point at normalized arc length `0` and last
point at `1`. -/
theorem C4_curve_endpoints_and_monotone (n : ℝ)
    (hn₁ : 0.1 ≤ n) (hn₂ : n ≤ 25) :
    generateCurvePoints n ≠ [] ∧
    (generateCurvePoints n).headI.normalizedArcLength = 0 ∧
    (generateCurvePoints n).getLastI.normalizedArcLength = 1 ∧
    (generateCurvePoints n).Pairwise
      (fun p q => p.normalizedArcLength ≤ q.normalizedArcLength) := by
  refine ⟨genCurve_ne_nil _ _, ?_, ?_, genCurve_pairwise _ _⟩
  · rw [generateCurvePoints, genCurve_headI]
    exact normArc_zero _ _
  · rw [generateCurvePoints, genCurve_getLastI]
    exact normArc_top _ _

/-- Witness for C4 at the concrete exponent `n = 2`. -/
theorem C4_witness :
    ((0.1 : ℝ) ≤ 2 ∧ (2 : ℝ) ≤ 25) ∧
    (generateCurvePoints 2 ≠ [] ∧
      (generateCurvePoints 2).headI.normalizedArcLength = 0 ∧
      (generateCurvePoints 2).getLastI.normalizedArcLength = 1 ∧
      (generateCurvePoints 2).Pairwise
        (fun p q => p.normalizedArcLength ≤ q.normalizedArcLength)) :=
  ⟨⟨by norm_num, by norm_num⟩,
    C4_curve_endpoints_and_monotone 2 (by norm_num) (by norm_num)⟩

/-- C9: for every non-empty curve, `findPointAtArcLength` returns the first
sample whenever the query is `≤ 0` and the last sample whenever it is `≥ 1`;
in particular the queries `0` and `1` return the first and last sample. -/
theorem C9_findPointAtArcLength_boundary_clamps (pts : List CurvePoint)
    (hne : pts ≠ []) :
    (∀ q : ℝ, q ≤ 0 → findPointAtArcLength q pts = asResolved pts.headI) ∧
    (∀ q : ℝ, 1 ≤ q → findPointAtArcLength q pts = asResolved pts.getLastI) ∧
    findPointAtArcLength 0 pts = asResolved pts.headI ∧
    findPointAtArcLength 1 pts = asResolved pts.getLastI := by
  have hle : ∀ q : ℝ, q ≤ 0 → findPointAtArcLength q pts = asResolved pts.headI := by
    intro q hq
    rw [findPointAtArcLength.eq_def, if_pos hq]
  have hge : ∀ q : ℝ, 1 ≤ q → findPointAtArcLength q pts = asResolved pts.getLastI := by
    intro q hq
    rw [findPointAtArcLength.eq_def, if_neg (by linarith), if_pos hq]
  exact ⟨hle, hge, hle 0 le_rfl, hge 1 le_rfl⟩

/-- Witness for C9 on a concrete one-sample curve. -/
theorem C9_witness :
    ([(⟨0, 1, 0, 180, 180, 0, 0⟩ : CurvePoint)] ≠ []) ∧
    ((∀ q : ℝ, q ≤ 0 → findPointAtArcLength q [(⟨0, 1, 0, 180, 180, 0, 0⟩ : CurvePoint)]
        = asResolved [(⟨0, 1, 0, 180, 180, 0, 0⟩ : CurvePoint)].headI) ∧
      (∀ q : ℝ, 1 ≤ q → findPointAtArcLength q [(⟨0, 1, 0, 180, 180, 0, 0⟩ : CurvePoint)]
        = asResolved [(⟨0, 1, 0, 180, 180, 0, 0⟩ : CurvePoint)].getLastI) ∧
      findPointAtArcLength 0 [(⟨0, 1, 0, 180, 180, 0, 0⟩ : CurvePoint)]
        = asResolved [(⟨0, 1, 0, 180, 180, 0, 0⟩ : CurvePoint)].headI ∧
      findPointAtArcLength 1 [(⟨0, 1, 0, 180, 180, 0, 0⟩ : CurvePoint)]
        = asResolved [(⟨0, 1, 0, 180, 180, 0, 0⟩ : CurvePoint)].getLastI) :=
  ⟨by simp, C9_findPointAtArcLength_boundary_clamps _ (by simp)⟩

/-! ### Distributor lemmas -/

lemma useContrastFlag_one : useContrastFlag 1 = false := by
  simp [useContrastFlag]

lemma useContrastFlag_of_ne {c : ℝ} (h : c ≠ 1) : useContrastFlag c = true := by
  simp [useContrastFlag, h]

lemma round_mono_real {x y : ℝ} (h : x ≤ y) : round x ≤ round y := by
  rw [round_eq, round_eq]
  exact Int.floor_mono (by linarith)

/-- In every branch, the split is a pair of nonnegative integers summing to
`count - 1`. -/
lemma computeSplit_nonneg_sum (count : ℕ) (a c : ℝ) (sm : Bool)
    (h0 : 0 ≤ a) (h1 : a ≤ 1) (hc : 1 ≤ count) :
    0 ≤ (computeSplit count a c sm).1 ∧ 0 ≤ (computeSplit count a c sm).2 ∧
      (computeSplit count a c sm).1 + (computeSplit count a c sm).2 = (count : ℤ) - 1 := by
  have hptd : (0 : ℤ) ≤ (count : ℤ) - 1 := by
    have : (1 : ℤ) ≤ (count : ℤ) := by exact_mod_cast hc
    omega
  have hptdR : (0 : ℝ) ≤ ((count : ℤ) - 1 : ℤ) := by exact_mod_cast hptd
  have hround_lb : 0 ≤ round (a * (((count : ℤ) - 1 : ℤ) : ℝ)) := by
    have := round_mono_real (mul_nonneg h0 hptdR)
    simpa [round_zero] using this
  have hround_ub : round (a * (((count : ℤ) - 1 : ℤ) : ℝ)) ≤ (count : ℤ) - 1 := by
    have hle : a * (((count : ℤ) - 1 : ℤ) : ℝ) ≤ (((count : ℤ) - 1 : ℤ) : ℝ) :=
      mul_le_of_le_one_left hptdR h1
    have := round_mono_real hle
    simpa [round_intCast] using this
  simp only [computeSplit]
  split_ifs with hsm hpb hpa hev htie
  · exact ⟨by norm_num, by omega, by omega⟩
  · exact ⟨by omega, by norm_num, by omega⟩
  · exact ⟨hround_lb, by omega, by omega⟩
  all_goals
    refine ⟨?_, ?_, ?_⟩ <;>
    · rcases Int.even_or_odd ((count : ℤ) - 1) with ⟨m, hm⟩ | ⟨m, hm⟩
      · have hfl : ⌊((((count : ℤ) - 1 : ℤ) : ℝ)) / 2⌋ = m := by
          rw [hm]; push_cast
          rw [show ((m : ℝ) + m) / 2 = (m : ℝ) by ring]
          exact Int.floor_intCast m
        have hcl : ⌈((((count : ℤ) - 1 : ℤ) : ℝ)) / 2⌉ = m := by
          rw [hm]; push_cast
          rw [show ((m : ℝ) + m) / 2 = (m : ℝ) by ring]
          exact Int.ceil_intCast m
        simp only [hfl, hcl]
        omega
      · have hm2 : (0 : ℤ) ≤ m := by omega
        have hfl : ⌊((((count : ℤ) - 1 : ℤ) : ℝ)) / 2⌋ = m := by
          rw [hm, Int.floor_eq_iff]
          constructor <;> push_cast <;> linarith
        have hcl : ⌈((((count : ℤ) - 1 : ℤ) : ℝ)) / 2⌉ = m + 1 := by
          rw [hm, Int.ceil_eq_iff]
          constructor <;> push_cast <;> linarith
        simp only [hfl, hcl]
        omega

/-! ### Claims C5, C6, C7, C2 -/

/-- C5: with smart spacing active (`contrast = 1.0`), the before/after split
equals the specification's rounding formula with the one-point steal
correction, it sums to `count - 1`, and when at least two points are
distributed neither side is left empty. -/
theorem C5_smart_spacing_split (count : ℕ) (a : ℝ)
    (h0 : 0 ≤ a) (h1 : a ≤ 1) (hc : 1 ≤ count) :
    computeSplit count a 1 true = smartSplitSpec count a ∧
    (computeSplit count a 1 true).1 + (computeSplit count a 1 true).2 = (count : ℤ) - 1 ∧
    (2 ≤ (count : ℤ) - 1 →
      1 ≤ (computeSplit count a 1 true).1 ∧ 1 ≤ (computeSplit count a 1 true).2) := by
  have hptd : (0 : ℤ) ≤ (count : ℤ) - 1 := by
    have : (1 : ℤ) ≤ (count : ℤ) := by exact_mod_cast hc
    omega
  have hptdR : (0 : ℝ) ≤ ((count : ℤ) - 1 : ℤ) := by exact_mod_cast hptd
  have hround_lb : 0 ≤ round (a * (((count : ℤ) - 1 : ℤ) : ℝ)) := by
    have := round_mono_real (mul_nonneg h0 hptdR)
    simpa [round_zero] using this
  have hround_ub : round (a * (((count : ℤ) - 1 : ℤ) : ℝ)) ≤ (count : ℤ) - 1 := by
    have hle : a * (((count : ℤ) - 1 : ℤ) : ℝ) ≤ (((count : ℤ) - 1 : ℤ) : ℝ) :=
      mul_le_of_le_one_left hptdR h1
    have := round_mono_real hle
    simpa [round_intCast] using this
  refine ⟨?_, ?_, ?_⟩
  · simp only [computeSplit, smartSplitSpec, useContrastFlag_one, eq_self_iff_true,
      and_self, if_true, ite_true]
    push_cast
    rfl
  · simp only [computeSplit, useContrastFlag_one, eq_self_iff_true, and_self,
      if_true, ite_true]
    split_ifs <;> omega
  · intro h2
    simp only [computeSplit, useContrastFlag_one, eq_self_iff_true, and_self,
      if_true, ite_true]
    split_ifs with hpb hpa
    · exact ⟨le_refl 1, by omega⟩
    · exact ⟨by omega, le_refl 1⟩
    · constructor <;> omega

/-- Witness for C5 at `count = 10`, `a = 0.7`. -/
theorem C5_witness :
    computeSplit 10 0.7 1 true = smartSplitSpec 10 0.7 ∧
    (computeSplit 10 0.7 1 true).1 + (computeSplit 10 0.7 1 true).2 = (10 : ℤ) - 1 ∧
    (2 ≤ (10 : ℤ) - 1 →
      1 ≤ (computeSplit 10 0.7 1 true).1 ∧ 1 ≤ (computeSplit 10 0.7 1 true).2) :=
  C5_smart_spacing_split 10 0.7 (by norm_num) (by norm_num) (by norm_num)

/-- C6: with smart spacing disabled, an even total count splits `count - 1`
into floor/ceil halves, the ceil half going to the side (before/after the
anchor) whose raw arc-length span (`a` versus `1 - a`) is larger; an odd
total count splits exactly evenly. -/
theorem C6_centered_split (count : ℕ) (a c : ℝ) :
    (count % 2 = 0 →
      (1 - a < a → computeSplit count a c false =
        (⌈((count : ℝ) - 1) / 2⌉, ⌊((count : ℝ) - 1) / 2⌋)) ∧
      (a < 1 - a → computeSplit count a c false =
        (⌊((count : ℝ) - 1) / 2⌋, ⌈((count : ℝ) - 1) / 2⌉))) ∧
    (count % 2 = 1 →
      (computeSplit count a c false).1 = (computeSplit count a c false).2) := by
  constructor
  · intro hev
    constructor
    · intro hlt
      simp only [computeSplit, Bool.false_eq_true, false_and, if_false, ite_false,
        if_pos hev, if_pos (le_of_lt hlt)]
      push_cast
      rfl
    · intro hlt
      simp only [computeSplit, Bool.false_eq_true, false_and, if_false, ite_false,
        if_pos hev, if_neg (not_le.mpr hlt)]
      push_cast
      rfl
  · intro hodd
    have hev : ¬(count % 2 = 0) := by omega
    simp only [computeSplit, Bool.false_eq_true, false_and, if_false, ite_false,
      if_neg hev]

/-- Witness for C6 at `count = 10`, `a = 0.7` (before side larger). -/
theorem C6_witness :
    computeSplit 10 0.7 1 false = (⌈((10 : ℝ) - 1) / 2⌉, ⌊((10 : ℝ) - 1) / 2⌋) :=
  ((C6_centered_split 10 0.7 1).1 (by norm_num)).1 (by norm_num)

/-- C7: in contrast mode (`contrast ≠ 1.0`), the per-point arc length of
`_calculateArcLength` equals the specification's reference formula on both
sides of the anchor. -/
theorem C7_contrast_formula (i side : ℕ) (anchor contrast : ℝ) (isBefore : Bool)
    (h : contrast ≠ 1) :
    calculateArcLength i side anchor contrast true isBefore =
      contrastArcLengthSpec i side anchor contrast isBefore := by
  rcases lt_or_gt_of_ne h with h1 | h1
  · simp only [calculateArcLength, poweredDistance, contrastArcLengthSpec,
      if_neg (by simp : ¬(true = false)), if_neg (not_lt.mpr (le_of_lt h1)), if_pos h1]
    cases isBefore <;>
      simp only [Bool.false_eq_true, if_false, if_true, ite_false, ite_true] <;> ring
  · simp only [calculateArcLength, poweredDistance, contrastArcLengthSpec,
      if_neg (by simp : ¬(true = false)), if_pos h1]
    cases isBefore <;>
      simp only [Bool.false_eq_true, if_false, if_true, ite_false, ite_true] <;> ring

/-- Witness for C7 at `i = 0`, `side = 2`, `anchor = 1/2`, `contrast = 2`. -/
theorem C7_witness :
    calculateArcLength 0 2 (1 / 2) 2 true true =
      contrastArcLengthSpec 0 2 (1 / 2) 2 true :=
  C7_contrast_formula 0 2 (1 / 2) 2 true (by norm_num)

/-- C2: enabling the smart-spacing toggle forces the stored contrast back to
exactly `1.0` (so the regeneration that follows runs with
`useContrastMode = false`, the linear per-point formula), and inside the
engine the smart-spacing split branch is never taken with `contrast ≠ 1.0`
— with a non-unit contrast the split is identical to the smart-spacing-off
split, so no output ever combines the smart-spacing split with the
contrast-warped per-point formula. -/
theorem C2_smart_spacing_contrast_exclusive :
    (∀ st : UiState, (handleSmartSpacingToggle st true).contrast = 1 ∧
      (handleSmartSpacingToggle st true).smartSpacing = true ∧
      useContrastFlag (handleSmartSpacingToggle st true).contrast = false) ∧
    (∀ (c : ℝ), c ≠ 1 → ∀ (count : ℕ) (a : ℝ),
      computeSplit count a c true = computeSplit count a c false) := by
  constructor
  · intro st
    have hc1 : (handleSmartSpacingToggle st true).contrast = 1 := by
      simp only [handleSmartSpacingToggle, if_true, ite_true]
      norm_num
    refine ⟨hc1, by simp [handleSmartSpacingToggle], ?_⟩
    rw [hc1]
    exact useContrastFlag_one
  · intro c hc count a
    simp only [computeSplit, useContrastFlag_of_ne hc, Bool.true_eq_false, and_false,
      Bool.false_eq_true, false_and, if_false, ite_false]

/-- Witness for C2 at a concrete state and a concrete non-unit contrast. -/
theorem C2_witness :
    ((handleSmartSpacingToggle ⟨2.5, false, false⟩ true).contrast = 1 ∧
      (handleSmartSpacingToggle ⟨2.5, false, false⟩ true).smartSpacing = true ∧
      useContrastFlag (handleSmartSpacingToggle ⟨2.5, false, false⟩ true).contrast = false) ∧
    computeSplit 6 0.3 2.5 true = computeSplit 6 0.3 2.5 false :=
  ⟨C2_smart_spacing_contrast_exclusive.1 ⟨2.5, false, false⟩,
    C2_smart_spacing_contrast_exclusive.2 2.5 (by norm_num) 6 0.3⟩

/-! ### Per-point value lemmas and claim C3 -/

/-- The powered distance is positive whenever the normalized distance is. -/
lemma poweredDistance_pos {nd : ℝ} (c : ℝ) (hnd : 0 < nd) :
    0 < poweredDistance nd c := by
  unfold poweredDistance
  split_ifs with h1 h2
  · have hs0 : 0 < min ((c - 1) / 4.0) 1.0 :=
      lt_min (by apply div_pos <;> linarith) (by norm_num)
    have hs1 := min_le_right ((c - 1) / 4.0) (1.0 : ℝ)
    have hw : (0 : ℝ) < nd ^ ((1 : ℝ) / 1.5) := Real.rpow_pos_of_pos hnd _
    have hfirst : (0 : ℝ) ≤ nd * (1 - min ((c - 1) / 4.0) 1.0) :=
      mul_nonneg (le_of_lt hnd) (by linarith)
    nlinarith
  · have hs0 : 0 < min ((1 - c) / 0.9) 1.0 :=
      lt_min (by apply div_pos <;> linarith) (by norm_num)
    have hs1 := min_le_right ((1 - c) / 0.9) (1.0 : ℝ)
    have hw : (0 : ℝ) < nd ^ (1.5 : ℝ) := Real.rpow_pos_of_pos hnd _
    have hfirst : (0 : ℝ) ≤ nd * (1 - min ((1 - c) / 0.9) 1.0) :=
      mul_nonneg (le_of_lt hnd) (by linarith)
    nlinarith
  · exact hnd

/-- Every before-side point sits strictly below the anchor arc length (for
an anchor strictly inside `(0,1)`), in both the linear and the contrast
branch. -/
lemma calculateArcLength_before_lt (i total : ℕ) (a c : ℝ) (u : Bool)
    (hi : i < total) (ha0 : 0 < a) (ha1 : a < 1) :
    calculateArcLength i total a c u true < a := by
  have hT : (0 : ℝ) < (total : ℝ) + 1 := by positivity
  have hiT : ((i : ℝ) + 1) ≤ (total : ℝ) := by
    have : (i : ℝ) + 1 ≤ (total : ℝ) := by exact_mod_cast hi
    linarith
  cases u with
  | false =>
      simp only [calculateArcLength, eq_self_iff_true, if_true, ite_true]
      rw [div_mul_eq_mul_div, div_lt_iff₀ hT]
      nlinarith
  | true =>
      simp only [calculateArcLength, Bool.true_eq_false, if_false, ite_false,
        if_true, ite_true]
      have hnd : (0 : ℝ) < ((total : ℝ) - (i : ℝ)) / ((total : ℝ) + 1) := by
        apply div_pos _ hT
        have : (i : ℝ) < (total : ℝ) := by exact_mod_cast hi
        linarith
      have hpd := poweredDistance_pos c hnd
      have := mul_pos ha0 hpd
      linarith

/-- Every after-side point sits strictly above the anchor arc length (for
an anchor strictly inside `(0,1)`), in both the linear and the contrast
branch. -/
lemma calculateArcLength_after_gt (i total : ℕ) (a c : ℝ) (u : Bool)
    (ha0 : 0 < a) (ha1 : a < 1) :
    a < calculateArcLength i total a c u false := by
  have hT : (0 : ℝ) < (total : ℝ) + 1 := by positivity
  cases u with
  | false =>
      simp only [calculateArcLength, eq_self_iff_true, if_true, ite_true,
        Bool.false_eq_true, if_false, ite_false]
      have : (0 : ℝ) < (1 - a) / ((total : ℝ) + 1) * ((i : ℝ) + 1) := by
        apply mul_pos (div_pos (by linarith) hT) (by positivity)
      linarith
  | true =>
      simp only [calculateArcLength, Bool.true_eq_false, Bool.false_eq_true,
        if_false, ite_false]
      have hnd : (0 : ℝ) < ((i : ℝ) + 1) / ((total : ℝ) + 1) := by positivity
      have hpd := poweredDistance_pos c hnd
      have := mul_pos (show (0 : ℝ) < 1 - a by linarith) hpd
      linarith

/-- The distribution always yields exactly `count` arc-length values. -/
lemma computeSwatchArcLengths_length (count : ℕ) (a c : ℝ) (sm : Bool)
    (h0 : 0 ≤ a) (h1 : a ≤ 1) (hc : 1 ≤ count) :
    (computeSwatchArcLengths count a c sm).length = count := by
  obtain ⟨hpb, hpa, hsum⟩ := computeSplit_nonneg_sum count a c sm h0 h1 hc
  simp only [computeSwatchArcLengths, List.length_append, List.length_cons,
    List.length_map, List.length_range]
  omega

/-- C3 (amended): for every count from 1 to 50, every contrast, every
spacing mode, and every anchor arc length strictly inside `(0,1)`, the
distribution produces exactly `count` values of which exactly one equals the
anchor arc length (the anchor value splits the list into a before part and
an after part containing no copy of it). -/
theorem C3_count_and_unique_anchor (count : ℕ) (a c : ℝ) (sm : Bool)
    (hc1 : 1 ≤ count) (hc50 : count ≤ 50) (ha0 : 0 < a) (ha1 : a < 1) :
    (computeSwatchArcLengths count a c sm).length = count ∧
    ∃ l1 l2 : List ℝ, computeSwatchArcLengths count a c sm = l1 ++ a :: l2 ∧
      (∀ x ∈ l1, x ≠ a) ∧ (∀ x ∈ l2, x ≠ a) := by
  refine ⟨computeSwatchArcLengths_length count a c sm (le_of_lt ha0) (le_of_lt ha1) hc1,
    (List.range (computeSplit count a c sm).1.toNat).map (fun i =>
      calculateArcLength i (computeSplit count a c sm).1.toNat a c (useContrastFlag c) true),
    (List.range (computeSplit count a c sm).2.toNat).map (fun i =>
      calculateArcLength i (computeSplit count a c sm).2.toNat a c (useContrastFlag c) false),
    rfl, ?_, ?_⟩
  · intro x hx
    rw [List.mem_map] at hx
    obtain ⟨i, hi, rfl⟩ := hx
    rw [List.mem_range] at hi
    exact ne_of_lt (calculateArcLength_before_lt i _ a c _ hi ha0 ha1)
  · intro x hx
    rw [List.mem_map] at hx
    obtain ⟨i, hi, rfl⟩ := hx
    exact ne_of_gt (calculateArcLength_after_gt i _ a c _ ha0 ha1)

/-- Witness for the amended C3 at `count = 4`, `a = 1/2`, smart spacing. -/
theorem C3_witness :
    (computeSwatchArcLengths 4 (1 / 2) 1 true).length = 4 ∧
    ∃ l1 l2 : List ℝ,
      computeSwatchArcLengths 4 (1 / 2) 1 true = l1 ++ (1 / 2 : ℝ) :: l2 ∧
      (∀ x ∈ l1, x ≠ (1 / 2 : ℝ)) ∧ (∀ x ∈ l2, x ≠ (1 / 2 : ℝ)) :=
  C3_count_and_unique_anchor 4 (1 / 2) 1 true (by norm_num) (by norm_num)
    (by norm_num) (by norm_num)

/-- C3 fails as stated for boundary anchors: at anchor arc length `0` (which
`findClosestPoint` does return, e.g. for the anchor color
saturation = 100 %, value = 0 %), count 4, smart spacing, the edge
correction forces one before-side point whose computed arc length is also
exactly `0`, so two of the four values equal the anchor's arc length. -/
theorem C3_counterexample :
    computeSwatchArcLengths 4 0 1 true = [0, 0, 1 / 3, 2 / 3] ∧
    ¬ ∃ l1 l2 : List ℝ, computeSwatchArcLengths 4 0 1 true = l1 ++ (0 : ℝ) :: l2 ∧
      (∀ x ∈ l1, x ≠ (0 : ℝ)) ∧ (∀ x ∈ l2, x ≠ (0 : ℝ)) := by
  have hsplit : computeSplit 4 0 1 true = (1, 2) := by
    simp only [computeSplit, useContrastFlag_one, eq_self_iff_true, and_self,
      if_true, ite_true]
    norm_num
  have hlist : computeSwatchArcLengths 4 0 1 true = [0, 0, 1 / 3, 2 / 3] := by
    simp only [computeSwatchArcLengths, hsplit]
    norm_num [List.range_succ, calculateArcLength, useContrastFlag_one,
      show Int.toNat 2 = 2 from rfl, show Int.toNat 1 = 1 from rfl]
  refine ⟨hlist, ?_⟩
  rintro ⟨l1, l2, heq, hl1, hl2⟩
  rw [hlist] at heq
  cases l1 with
  | nil =>
      simp only [List.nil_append, List.cons.injEq] at heq
      exact hl2 0 (by rw [← heq.2]; simp) rfl
  | cons x l1' =>
      simp only [List.cons_append, List.cons.injEq] at heq
      exact hl1 x (by simp) heq.1.symm

/-! ### Nearest-point bounds and claim C8 -/

lemma getD_mem_or {α : Type _} (l : List α) (n : ℕ) (d : α) :
    l.getD n d ∈ l ∨ l.getD n d = d := by
  induction l generalizing n with
  | nil => right; simp
  | cons a t ih =>
      cases n with
      | zero => left; simp
      | succ m =>
          rcases ih m with h | h
          · left; simp only [List.getD_cons_succ]; exact List.mem_cons_of_mem a h
          · right; simpa using h

lemma foldl_preserve {α β : Type _} (P : α → Prop) (f : α → β → α) (l : List β)
    (st : α) (h0 : P st) (hstep : ∀ s b, P s → P (f s b)) : P (l.foldl f st) := by
  induction l generalizing st with
  | nil => exact h0
  | cons b t ih => exact ih _ (hstep _ _ h0)

/-- One refinement step keeps the tracked normalized arc length inside
`[0,1]` (the clamped projection parameter makes the interpolant a convex
combination of the two samples). -/
lemma refineStep_preserves (tx ty : ℝ) (p1 p2 : CurvePoint)
    (h1 : 0 ≤ p1.normalizedArcLength ∧ p1.normalizedArcLength ≤ 1)
    (h2 : 0 ≤ p2.normalizedArcLength ∧ p2.normalizedArcLength ≤ 1)
    (st : ResolvedPoint × ℝ)
    (hst : 0 ≤ st.1.normalizedArcLength ∧ st.1.normalizedArcLength ≤ 1) :
    0 ≤ (refineStep tx ty p1 p2 st).1.normalizedArcLength ∧
      (refineStep tx ty p1 p2 st).1.normalizedArcLength ≤ 1 := by
  unfold refineStep
  dsimp only
  split_ifs with hseg hd
  · set s := max 0 (min 1 (((tx - p1.x) * (p2.x - p1.x) + (ty - p1.y) * (p2.y - p1.y)) /
      ((p2.x - p1.x) * (p2.x - p1.x) + (p2.y - p1.y) * (p2.y - p1.y)))) with hs
    have hs0 : 0 ≤ s := le_max_left _ _
    have hs1 : s ≤ 1 := max_le zero_le_one (min_le_left _ _)
    dsimp only
    constructor
    · nlinarith [mul_nonneg (by linarith : (0 : ℝ) ≤ 1 - s) h1.1,
        mul_nonneg hs0 h2.1]
    · nlinarith [mul_le_mul_of_nonneg_left h1.2 (by linarith : (0 : ℝ) ≤ 1 - s),
        mul_le_mul_of_nonneg_left h2.2 hs0]
  · exact hst
  · exact hst

/-- The projected anchor's normalized arc length always lies in `[0,1]`
when every curve sample's does. -/
lemma findClosestPoint_nal_bounds (tx ty : ℝ) (pts : List CurvePoint)
    (hmem : ∀ p ∈ pts, 0 ≤ p.normalizedArcLength ∧ p.normalizedArcLength ≤ 1) :
    0 ≤ (findClosestPoint tx ty pts).normalizedArcLength ∧
      (findClosestPoint tx ty pts).normalizedArcLength ≤ 1 := by
  have hget : ∀ n, 0 ≤ (pts.getD n default).normalizedArcLength ∧
      (pts.getD n default).normalizedArcLength ≤ 1 := by
    intro n
    rcases getD_mem_or pts n default with h | h
    · exact hmem _ h
    · rw [h]
      exact ⟨le_refl 0, zero_le_one⟩
  simp only [findClosestPoint]
  exact foldl_preserve
    (fun st : ResolvedPoint × ℝ =>
      0 ≤ st.1.normalizedArcLength ∧ st.1.normalizedArcLength ≤ 1)
    _ _ _ (hget _)
    (fun s i hs => refineStep_preserves tx ty _ _ (hget i) (hget (i + 1)) s hs)

/-- C8: with black/white endpoints requested and `count = 10`, the output
has exactly 12 swatches; the first is the fixed black swatch (arc length
`0`, unit-square coordinates `(0,0)`, i.e. `s = v = 0`), the last is the
fixed white swatch (arc length `1`, coordinates `(0,1)`, i.e. `s = 0`,
`v = 100`), and both are the fixed constants rather than curve lookups. -/
theorem C8_black_white_endpoints (p : PaletteParams)
    (hbw : p.includeBlackWhite = true) (hcount : p.colorCount = 10) :
    (generatePalette p).length = 12 ∧
    (generatePalette p).headI = blackSwatch ∧
    (generatePalette p).getLastI = whiteSwatch := by
  have ha := findClosestPoint_nal_bounds (p.saturation / 100) (p.value / 100)
    (generateCurvePoints (findExponent (p.saturation / 100) (p.value / 100)))
    (fun q hq => genCurve_mem_nal hq)
  obtain ⟨hpb, hpa, hsum⟩ := computeSplit_nonneg_sum p.colorCount
    ((findClosestPoint (p.saturation / 100) (p.value / 100)
      (generateCurvePoints (findExponent (p.saturation / 100) (p.value / 100)))).normalizedArcLength)
    p.contrast p.smartSpacing ha.1 ha.2 (by rw [hcount]; norm_num)
  have h10 : (p.colorCount : ℤ) = 10 := by rw [hcount]; norm_num
  refine ⟨?_, ?_, ?_⟩
  · simp only [generatePalette, hbw, eq_self_iff_true, if_true, ite_true,
      List.length_append, List.length_cons, List.length_map, List.length_range,
      List.length_nil]
    omega
  · simp only [generatePalette, hbw, eq_self_iff_true, if_true, ite_true,
      List.cons_append, List.headI]
  · simp only [generatePalette, hbw, eq_self_iff_true, if_true, ite_true]
    exact getLastI_concat _ _

/-- Witness for C8 at concrete generation parameters. -/
theorem C8_witness :
    (generatePalette ⟨220, 81, 78, 10, 1, false, true, some 100⟩).length = 12 ∧
    (generatePalette ⟨220, 81, 78, 10, 1, false, true, some 100⟩).headI = blackSwatch ∧
    (generatePalette ⟨220, 81, 78, 10, 1, false, true, some 100⟩).getLastI = whiteSwatch :=
  C8_black_white_endpoints ⟨220, 81, 78, 10, 1, false, true, some 100⟩ rfl rfl

/-! ### Bisection analysis for claim C1

For `x, y ∈ (0,1)` the objective `superF x y n = x^n + y^n - 1` is
antitone in `n`; on `(0.001, 1]` bases it moves by at most `14·δ` over an
exponent gap `δ ≥ 0`.  The loop maintains a bracket `[a, b]` with
`superF a > 0 ≥ superF b` that halves each step, so after 100 steps the
returned midpoint evaluates within `14·24.9/2^100` of zero unless the
tolerance check already returned. -/

lemma superF_anti {x y : ℝ} (hx0 : 0 < x) (hx1 : x < 1) (hy0 : 0 < y) (hy1 : y < 1)
    {a b : ℝ} (hab : a ≤ b) : superF x y b ≤ superF x y a := by
  unfold superF
  have h1 : x ^ b ≤ x ^ a := Real.rpow_le_rpow_of_exponent_ge hx0 (le_of_lt hx1) hab
  have h2 : y ^ b ≤ y ^ a := Real.rpow_le_rpow_of_exponent_ge hy0 (le_of_lt hy1) hab
  linarith

lemma exp_neg_seven_le : Real.exp (-7 : ℝ) ≤ 0.001 := by
  have h1 : (1000 : ℝ) ≤ Real.exp 7 := by
    have h2 : Real.exp (7 : ℝ) = Real.exp 1 ^ (7 : ℕ) := by
      rw [show (7 : ℝ) = ((7 : ℕ) : ℝ) * 1 by norm_num, Real.exp_nat_mul]
    rw [h2]
    calc (1000 : ℝ) ≤ 2.7182818283 ^ (7 : ℕ) := by norm_num
      _ ≤ Real.exp 1 ^ (7 : ℕ) :=
        pow_le_pow_left₀ (by norm_num) (le_of_lt Real.exp_one_gt_d9) 7
  rw [Real.exp_neg, show (0.001 : ℝ) = 1000⁻¹ by norm_num]
  exact inv_anti₀ (by norm_num) h1

/-- Quantitative continuity of the bisection objective over a bracket:
for bases in `(0.001, 1]` and exponents `0 ≤ a ≤ b`,
`superF x y a - superF x y b ≤ 14 (b - a)`. -/
lemma superF_gap {x y : ℝ} (hx0 : 0.001 < x) (hx1 : x ≤ 1) (hy0 : 0.001 < y)
    (hy1 : y ≤ 1) {a b : ℝ} (ha : 0 ≤ a) (hab : a ≤ b) :
    superF x y a - superF x y b ≤ 14 * (b - a) := by
  have key : ∀ z : ℝ, 0.001 < z → z ≤ 1 → z ^ a - z ^ b ≤ 7 * (b - a) := by
    intro z hz0 hz1
    have hz0' : (0 : ℝ) < z := lt_trans (by norm_num) hz0
    have hlog : (-7 : ℝ) ≤ Real.log z := by
      rw [Real.le_log_iff_exp_le hz0']
      linarith [exp_neg_seven_le]
    have hd : z ^ b = z ^ a * z ^ (b - a) := by
      rw [← Real.rpow_add hz0']
      ring_nf
    have hza1 : z ^ a ≤ 1 := Real.rpow_le_one (le_of_lt hz0') hz1 ha
    have hzd1 : z ^ (b - a) ≤ 1 :=
      Real.rpow_le_one (le_of_lt hz0') hz1 (by linarith)
    have hexp : 1 + Real.log z * (b - a) ≤ z ^ (b - a) := by
      rw [Real.rpow_def_of_pos hz0']
      linarith [Real.add_one_le_exp (Real.log z * (b - a))]
    calc z ^ a - z ^ b = z ^ a * (1 - z ^ (b - a)) := by rw [hd]; ring
      _ ≤ 1 * (1 - z ^ (b - a)) :=
        mul_le_mul_of_nonneg_right hza1 (by linarith)
      _ = 1 - z ^ (b - a) := one_mul _
      _ ≤ -(Real.log z) * (b - a) := by linarith
      _ ≤ 7 * (b - a) :=
        mul_le_mul_of_nonneg_right (by linarith) (by linarith)
  have hx := key x hx0 hx1
  have hy := key y hy0 hy1
  unfold superF
  linarith

/-- The bracket invariant of the bisection loop: starting from a bracket
`[a, b] ⊆ [0, 25]` with `superF a > 0 ≥ superF b`, the loop either
terminates through the tolerance check or returns a value inside a bracket
of width `(b - a) / 2^k` that still changes sign. -/
lemma bisectLoop_invariant {x y : ℝ} (hx0 : 0 < x) (hx1 : x < 1)
    (hy0 : 0 < y) (hy1 : y < 1) :
    ∀ (k : ℕ) (a b : ℝ), 0 ≤ a → a ≤ b → b ≤ 25 →
      0 < superF x y a → superF x y b ≤ 0 →
      (|superF x y (bisectLoop x y k a b)| < 0.001 ∨
        ∃ a' b', 0 ≤ a' ∧ a' ≤ bisectLoop x y k a b ∧ bisectLoop x y k a b ≤ b' ∧
          b' - a' ≤ (b - a) / 2 ^ k ∧ 0 < superF x y a' ∧ superF x y b' ≤ 0) := by
  intro k
  induction k with
  | zero =>
      intro a b ha hab hb25 hfa hfb
      right
      have hmin : min ((a + b) / 2) SUPERELLIPSE_N_MAX = (a + b) / 2 := by
        rw [min_eq_left]
        rw [SUPERELLIPSE_N_MAX]
        linarith
      refine ⟨a, b, ha, ?_, ?_, by norm_num, hfa, hfb⟩
      · rw [bisectLoop, hmin]; linarith
      · rw [bisectLoop, hmin]; linarith
  | succ k ih =>
      intro a b ha hab hb25 hfa hfb
      rw [bisectLoop]
      dsimp only
      by_cases habs : |superF x y ((a + b) / 2)| < SUPERELLIPSE_TOLERANCE
      · rw [if_pos habs]
        left
        have hmin : min ((a + b) / 2) SUPERELLIPSE_N_MAX = (a + b) / 2 := by
          rw [min_eq_left]
          rw [SUPERELLIPSE_N_MAX]
          linarith
        rw [hmin]
        rw [SUPERELLIPSE_TOLERANCE] at habs
        exact habs
      · rw [if_neg habs]
        by_cases hprod : superF x y ((a + b) / 2) * superF x y a < 0
        · rw [if_pos hprod]
          have hfmid : superF x y ((a + b) / 2) ≤ 0 := by
            by_contra hpos
            push_neg at hpos
            nlinarith
          rcases ih a ((a + b) / 2) ha (by linarith) (by linarith) hfa hfmid with
            h | ⟨a', b', ha', h1, h2, hw, hfa', hfb'⟩
          · exact Or.inl h
          · refine Or.inr ⟨a', b', ha', h1, h2, ?_, hfa', hfb'⟩
            have : ((a + b) / 2 - a) / 2 ^ k = (b - a) / 2 ^ (k + 1) := by
              rw [pow_succ]
              field_simp
              ring
            rw [← this]
            exact hw
        · rw [if_neg hprod]
          have hfmid : 0 < superF x y ((a + b) / 2) := by
            push_neg at hprod
            have hge : 0 ≤ superF x y ((a + b) / 2) := by
              by_contra hneg
              push_neg at hneg
              nlinarith
            rcases lt_or_eq_of_le hge with h | h
            · exact h
            · exfalso
              rw [SUPERELLIPSE_TOLERANCE] at habs
              rw [← h] at habs
              norm_num at habs
          rcases ih ((a + b) / 2) b (by linarith) (by linarith) hb25 hfmid hfb with
            h | ⟨a', b', ha', h1, h2, hw, hfa', hfb'⟩
          · exact Or.inl h
          · refine Or.inr ⟨a', b', ha', h1, h2, ?_, hfa', hfb'⟩
            have : (b - (a + b) / 2) / 2 ^ k = (b - a) / 2 ^ (k + 1) := by
              rw [pow_succ]
              field_simp
              ring
            rw [← this]
            exact hw

/-- Tenth-root lower bound: `c^10 ≤ x` gives `c ≤ x^0.1`. -/
lemma rpow_tenth_ge {c x : ℝ} (hc : 0 ≤ c) (hx : 0 < x)
    (h : c ^ (10 : ℕ) ≤ x) : c ≤ x ^ (0.1 : ℝ) :=
  by
  have hxp : (0 : ℝ) < x ^ (0.1 : ℝ) := Real.rpow_pos_of_pos hx _
  have key : (x ^ (0.1 : ℝ)) ^ (10 : ℕ) = x := by
    rw [← Real.rpow_natCast (x ^ (0.1 : ℝ)) 10, ← Real.rpow_mul (le_of_lt hx)]
    norm_num
  have h' : c ^ (10 : ℕ) ≤ (x ^ (0.1 : ℝ)) ^ (10 : ℕ) := by rw [key]; exact h
  exact (pow_le_pow_iff_left₀ hc (le_of_lt hxp) (by norm_num)).mp h'

/-- After 100 bisection steps from the bracket `[0.1, 25]` the returned
exponent evaluates the objective within `0.01` of zero. -/
lemma bisectLoop_tolerance {x y : ℝ} (hx001 : 0.001 < x) (hx1 : x < 1)
    (hy001 : 0.001 < y) (hy1 : y < 1)
    (hfa : 0 < superF x y 0.1) (hfb : superF x y 25 ≤ 0) :
    |superF x y (bisectLoop x y 100 0.1 25)| < 0.01 := by
  have hx0 : (0 : ℝ) < x := by linarith
  have hy0 : (0 : ℝ) < y := by linarith
  rcases bisectLoop_invariant hx0 hx1 hy0 hy1 100 0.1 25 (by norm_num) (by norm_num)
      (by norm_num) hfa hfb with h | ⟨a', b', ha', h1, h2, hw, hfa', hfb'⟩
  · calc |superF x y (bisectLoop x y 100 0.1 25)| < 0.001 := h
      _ < 0.01 := by norm_num
  · have hub : superF x y (bisectLoop x y 100 0.1 25) ≤ superF x y a' :=
      superF_anti hx0 hx1 hy0 hy1 h1
    have hlb : superF x y b' ≤ superF x y (bisectLoop x y 100 0.1 25) :=
      superF_anti hx0 hx1 hy0 hy1 h2
    have hgap := superF_gap hx001 (le_of_lt hx1) hy001 (le_of_lt hy1) ha'
      (le_trans h1 h2)
    have hsmall : (14 : ℝ) * ((25 - 0.1) / 2 ^ 100) < 0.01 := by norm_num
    rw [abs_lt]
    constructor <;> linarith

/-- C1 (amended): for every anchor `(x, y)` with `0.001 < x < 1`,
`0.001 < y < 1` whose superellipse equation is solvable within the
configured exponent bounds (`x^25 + y^25 ≤ 1`), the exponent returned by
`findExponent` satisfies `|x^n + y^n - 1| < 0.01`. -/
theorem C1_findExponent_tolerance (x y : ℝ)
    (hx001 : 0.001 < x) (hx1 : x < 1) (hy001 : 0.001 < y) (hy1 : y < 1)
    (hroot : x ^ (25 : ℝ) + y ^ (25 : ℝ) ≤ 1) :
    |x ^ findExponent x y + y ^ findExponent x y - 1| < 0.01 := by
  have hx0 : (0 : ℝ) < x := by linarith
  have hy0 : (0 : ℝ) < y := by linarith
  have hb1 : ¬(x ≤ 0.001 ∧ y ≤ 0.001) := by
    rintro ⟨h, -⟩
    linarith
  have hb2 : ¬(x ≤ 0.001 ∨ y ≤ 0.001) := by
    rintro (h | h) <;> linarith
  have hb3 : ¬(x ≥ 0.99 ∧ y ≥ 0.99) := by
    rintro ⟨hx99, hy99⟩
    have hbern : (0.75 : ℝ) ≤ 0.99 ^ (25 : ℕ) := by
      have hb := one_add_mul_le_pow (by norm_num : (-2 : ℝ) ≤ -0.01) 25
      norm_num at hb
      linarith
    have hx25 : (0.75 : ℝ) ≤ x ^ (25 : ℝ) := by
      calc (0.75 : ℝ) ≤ 0.99 ^ (25 : ℕ) := hbern
        _ = (0.99 : ℝ) ^ ((25 : ℕ) : ℝ) := (Real.rpow_natCast _ _).symm
        _ = (0.99 : ℝ) ^ (25 : ℝ) := by norm_num
        _ ≤ x ^ (25 : ℝ) := Real.rpow_le_rpow (by norm_num) hx99 (by norm_num)
    have hy25 : (0.75 : ℝ) ≤ y ^ (25 : ℝ) := by
      calc (0.75 : ℝ) ≤ 0.99 ^ (25 : ℕ) := hbern
        _ = (0.99 : ℝ) ^ ((25 : ℕ) : ℝ) := (Real.rpow_natCast _ _).symm
        _ = (0.99 : ℝ) ^ (25 : ℝ) := by norm_num
        _ ≤ y ^ (25 : ℝ) := Real.rpow_le_rpow (by norm_num) hy99 (by norm_num)
    linarith
  have hhalf : (0.5 : ℝ) ≤ (0.001 : ℝ) ^ (0.1 : ℝ) :=
    rpow_tenth_ge (by norm_num) (by norm_num) (by norm_num)
  have hfa : 0 < superF x y 0.1 := by
    have hx' : (0.001 : ℝ) ^ (0.1 : ℝ) < x ^ (0.1 : ℝ) :=
      Real.rpow_lt_rpow (by norm_num) hx001 (by norm_num)
    have hy' : (0.001 : ℝ) ^ (0.1 : ℝ) < y ^ (0.1 : ℝ) :=
      Real.rpow_lt_rpow (by norm_num) hy001 (by norm_num)
    unfold superF
    linarith
  have hfb : superF x y 25 ≤ 0 := by
    unfold superF
    linarith
  rw [findExponent, if_neg hb1, if_neg hb2, if_neg hb3]
  simp only [SUPERELLIPSE_MAX_ITERATIONS, SUPERELLIPSE_N_MIN, SUPERELLIPSE_N_MAX]
  simpa only [superF] using bisectLoop_tolerance hx001 hx1 hy001 hy1 hfa hfb

/-- Witness for the amended C1 at the concrete anchor `(0.5, 0.5)`. -/
theorem C1_witness :
    ((0.001 : ℝ) < 0.5 ∧ (0.5 : ℝ) < 1 ∧
      (0.5 : ℝ) ^ (25 : ℝ) + (0.5 : ℝ) ^ (25 : ℝ) ≤ 1) ∧
    |(0.5 : ℝ) ^ findExponent 0.5 0.5 + (0.5 : ℝ) ^ findExponent 0.5 0.5 - 1| < 0.01 := by
  have h25 : (0.5 : ℝ) ^ (25 : ℝ) + (0.5 : ℝ) ^ (25 : ℝ) ≤ 1 := by
    have : (0.5 : ℝ) ^ (25 : ℝ) = (0.5 : ℝ) ^ (25 : ℕ) := by
      rw [← Real.rpow_natCast (0.5 : ℝ) 25]
      norm_num
    rw [this]
    norm_num
  exact ⟨⟨by norm_num, by norm_num, h25⟩,
    C1_findExponent_tolerance 0.5 0.5 (by norm_num) (by norm_num) (by norm_num)
      (by norm_num) h25⟩

/-- C1 is false as stated: at the input `(x, y) = (0.0005, 0.5)` — inside
the claimed domain `0 < x < 1`, `0 < y < 1` — the degenerate-coordinate
guard returns `N_MIN = 0.1`, yet `x^0.1 + y^0.1 - 1 ≥ 0.3`, far outside the
claimed `0.01` tolerance. -/
theorem C1_counterexample :
    ((0 : ℝ) < 0.0005 ∧ (0.0005 : ℝ) < 1 ∧ (0 : ℝ) < 0.5 ∧ (0.5 : ℝ) < 1) ∧
    ¬(|(0.0005 : ℝ) ^ findExponent 0.0005 0.5 +
        (0.5 : ℝ) ^ findExponent 0.0005 0.5 - 1| < 0.01) := by
  have hfe : findExponent 0.0005 0.5 = (0.1 : ℝ) := by
    rw [findExponent, if_neg (by norm_num), if_pos (Or.inl (by norm_num : (0.0005 : ℝ) ≤ 0.001))]
    rw [SUPERELLIPSE_N_MIN]
  have hx : (0.4 : ℝ) ≤ (0.0005 : ℝ) ^ (0.1 : ℝ) :=
    rpow_tenth_ge (by norm_num) (by norm_num) (by norm_num)
  have hy : (0.9 : ℝ) ≤ (0.5 : ℝ) ^ (0.1 : ℝ) :=
    rpow_tenth_ge (by norm_num) (by norm_num) (by norm_num)
  refine ⟨⟨by norm_num, by norm_num, by norm_num, by norm_num⟩, ?_⟩
  rw [hfe, abs_of_nonneg (by linarith)]
  intro hlt
  linarith

end ShadePerfection

end
